import Mathlib

/-!
Verification of the htc-garden-planner client code and of the planning
contract it consumes.

The repository is browser-side JavaScript: grid painting (src/web/app.js and
src/unnamed/part_000, part_001), a ranked plant list, and a timeline viewer
for plans returned by the `/api/plan` engine.  The engine itself is not in
the repository; where a claim is about the engine, the corresponding
definition is modelled from the spec and marked as such in its doc comment.

Dates travel as `YYYY-MM-DD` strings and the code compares them with the
JavaScript string operators, so the embedding compares `String` values with
the lexicographic order.
-/

/-- A timeline entry of the plan payload: a plant occupying a plot over the
half-open date interval from `start` (inclusive) to `end_` (exclusive), with a
`method` tag.  Field `end_` renders the JSON field `end`, a keyword in Lean. -/
structure TimelineEntry where
  plant : String
  start : String
  end_ : String
  method : String
deriving DecidableEq, Repr

/-- The containment test of `getSnapshot`: the JavaScript condition
`dateStr >= e.start && dateStr < e.end`, read on the half-open interval. -/
def TimelineEntry.containsDate (e : TimelineEntry) (d : String) : Prop :=
  e.start ≤ d ∧ d < e.end_

instance (e : TimelineEntry) (d : String) : Decidable (e.containsDate d) := by
  unfold TimelineEntry.containsDate; infer_instance

/-- The inner loop of `getSnapshot` (src/web/app.js line 711, src/unnamed/part_001
line 844): walk the entries of one plot in list order and return the plant of the
first entry whose interval contains the date; `none` when no entry matches
(the JavaScript code leaves the initial `null`). -/
def snapEntry (entries : List TimelineEntry) (dateStr : String) : Option String :=
  match entries with
  | [] => none
  | e :: rest =>
      if e.start ≤ dateStr ∧ dateStr < e.end_ then some e.plant
      else snapEntry rest dateStr

/-- `getSnapshot` from src/web/app.js lines 711-723 and src/unnamed/part_001 lines
844-856: for every plot of the timeline, the plant growing on `dateStr`, or `none`.
The timeline argument is the `Object.entries` view of the payload: an association
list from plot id to that plot entry list. -/
def getSnapshot (timeline : List (String × List TimelineEntry)) (dateStr : String) :
    List (String × Option String) :=
  timeline.map (fun pe => (pe.1, snapEntry pe.2 dateStr))

/-- The first-match predicate of `getSnapshot`, as a Bool for `List.find?`. -/
def entryMatches (d : String) (e : TimelineEntry) : Bool :=
  decide (e.start ≤ d ∧ d < e.end_)

theorem snapEntry_eq_find? (entries : List TimelineEntry) (d : String) :
    snapEntry entries d = (entries.find? (entryMatches d)).map TimelineEntry.plant := by
  induction entries with
  | nil => rfl
  | cons e rest ih =>
      unfold snapEntry
      rw [List.find?_cons]
      by_cases h : e.start ≤ d ∧ d < e.end_
      · have hb : entryMatches d e = true := decide_eq_true h
        rw [if_pos h, hb]
        rfl
      · have hb : entryMatches d e = false := decide_eq_false h
        rw [if_neg h, hb, ih]

theorem getSnapshot_lookup (timeline : List (String × List TimelineEntry))
    (d p : String) :
    (getSnapshot timeline d).lookup p =
      (timeline.lookup p).map (fun es => snapEntry es d) := by
  induction timeline with
  | nil => rfl
  | cons a t ih =>
      by_cases h : p = a.1
      · simp [getSnapshot, List.lookup, h]
      · have h' : (p == a.1) = false := by simpa using h
        simpa [getSnapshot, List.lookup, h'] using ih

/-- Pairwise temporal disjointness of the entries of one plot: no date string is
contained in two of its entries.  This renders the no-overlap invariant of the
spec for half-open `[start, end)` ranges. -/
def entriesDisjoint (entries : List TimelineEntry) : Prop :=
  entries.Pairwise
    (fun a b => ∀ x : String, ¬ (a.containsDate x ∧ b.containsDate x))

theorem find?_perm_of_unique {α : Type} (p : α → Bool) {l l' : List α}
    (hperm : l.Perm l')
    (hu : ∀ a ∈ l, ∀ b ∈ l, p a = true → p b = true → a = b) :
    l.find? p = l'.find? p := by
  cases hfind : l.find? p with
  | none =>
      have hall := List.find?_eq_none.1 hfind
      symm
      rw [List.find?_eq_none]
      intro a ha
      exact hall a (hperm.mem_iff.2 ha)
  | some a =>
      have hpa : p a = true := List.find?_some hfind
      have hmem : a ∈ l := List.mem_of_find?_eq_some hfind
      cases hfind' : l'.find? p with
      | none =>
          have hall := List.find?_eq_none.1 hfind'
          exact absurd hpa (by simpa using hall a (hperm.mem_iff.1 hmem))
      | some b =>
          have hpb : p b = true := List.find?_some hfind'
          have hmemb : b ∈ l := hperm.mem_iff.2 (List.mem_of_find?_eq_some hfind')
          exact congrArg some (hu a hmem b hmemb hpa hpb)

theorem countP_le_one_of_pairwise {α : Type} (p : α → Bool) {l : List α}
    {r : α → α → Prop}
    (hl : l.Pairwise r) (hr : ∀ a b, r a b → ¬ (p a = true ∧ p b = true)) :
    l.countP p ≤ 1 := by
  induction l with
  | nil => simp
  | cons a t ih =>
      rcases List.pairwise_cons.1 hl with ⟨hat, ht⟩
      by_cases hpa : p a = true
      · have htz : t.countP p = 0 := by
          rw [List.countP_eq_zero]
          intro b hb
          intro hpb
          exact hr a b (hat b hb) ⟨hpa, hpb⟩
        rw [List.countP_cons, htz]
        simp [hpa]
      · rw [List.countP_cons]
        simp only [hpa, if_false, Nat.add_zero]
        exact ih ht

theorem disjoint_unique_match {entries : List TimelineEntry}
    (hd : entriesDisjoint entries) (d : String) :
    ∀ a ∈ entries, ∀ b ∈ entries,
      entryMatches d a = true → entryMatches d b = true → a = b := by
  intro a ha b hb hpa hpb
  by_contra hne
  have hsymm : Symmetric
      (fun a b : TimelineEntry => ∀ x : String,
        ¬ (a.containsDate x ∧ b.containsDate x)) := by
    intro x y hxy z hz
    exact hxy z ⟨hz.2, hz.1⟩
  exact (hd.forall hsymm) ha hb hne d
    ⟨of_decide_eq_true hpa, of_decide_eq_true hpb⟩

theorem getSnapshot_perm_eq {tl tl' : List (String × List TimelineEntry)}
    (d : String)
    (hperm : List.Forall₂ (fun a b => a.1 = b.1 ∧ a.2.Perm b.2) tl tl') :
    (∀ pe ∈ tl, entriesDisjoint pe.2) → getSnapshot tl d = getSnapshot tl' d := by
  induction hperm with
  | nil => intro _; rfl
  | @cons a b t t' hab htt ih =>
      intro hdisj
      have hd1 : entriesDisjoint a.2 := hdisj a (List.mem_cons_self _ _)
      have hdt : ∀ pe ∈ t, entriesDisjoint pe.2 :=
        fun pe hp => hdisj pe (List.mem_cons_of_mem _ hp)
      show (a.1, snapEntry a.2 d) :: getSnapshot t d
          = (b.1, snapEntry b.2 d) :: getSnapshot t' d
      have hsnap : snapEntry a.2 d = snapEntry b.2 d := by
        rw [snapEntry_eq_find?, snapEntry_eq_find?,
          find?_perm_of_unique (entryMatches d) hab.2 (disjoint_unique_match hd1 d)]
      rw [hab.1, hsnap, ih hdt]

/-- C2: under the no-overlap invariant, at most one entry of a plot contains any
given date string, and getSnapshot gives the same result after permuting every
plot entry list: the first-match rule is order-independent. -/
theorem getSnapshot_order_independent
    (tl tl' : List (String × List TimelineEntry)) (d : String)
    (hperm : List.Forall₂ (fun a b => a.1 = b.1 ∧ a.2.Perm b.2) tl tl')
    (hdisj : ∀ pe ∈ tl, entriesDisjoint pe.2) :
    getSnapshot tl d = getSnapshot tl' d
    ∧ ∀ pe ∈ tl, pe.2.countP (entryMatches d) ≤ 1 := by
  refine ⟨getSnapshot_perm_eq d hperm hdisj, fun pe hpe => ?_⟩
  refine countP_le_one_of_pairwise _ (hdisj pe hpe) ?_
  rintro a b hab ⟨hpa, hpb⟩
  exact hab d ⟨of_decide_eq_true hpa, of_decide_eq_true hpb⟩

/-- Concrete instantiation of `getSnapshot_order_independent`: reversing a plot
with two temporally disjoint entries leaves the snapshot unchanged. -/
theorem getSnapshot_order_independent_witness :
    getSnapshot [("2", [TimelineEntry.mk "Lettuce" "2026-03-01" "2026-04-01" "initial",
                        TimelineEntry.mk "Radish" "2026-04-01" "2026-05-01" "succession"])]
        "2026-03-15"
      = getSnapshot [("2", [TimelineEntry.mk "Radish" "2026-04-01" "2026-05-01" "succession",
                            TimelineEntry.mk "Lettuce" "2026-03-01" "2026-04-01" "initial"])]
        "2026-03-15" := by
  refine (getSnapshot_order_independent _ _ "2026-03-15" ?_ ?_).1
  · exact List.Forall₂.cons ⟨rfl, by decide⟩ List.Forall₂.nil
  · intro pe hpe
    simp only [List.mem_singleton] at hpe
    subst hpe
    refine List.Pairwise.cons ?_ (List.pairwise_singleton _ _)
    intro b hb
    simp only [List.mem_singleton] at hb
    subst hb
    rintro x ⟨⟨_, h2⟩, h3, _⟩
    exact absurd (lt_of_lt_of_le h2 h3) (lt_irrefl x)

/-- C1: for every timeline, plot id `p` present in it, and date string `d`, the
snapshot value at `p` is the plant of the first entry (in list order) whose
half-open interval `[start, end)` contains `d` under lexicographic string
comparison, and is `null` when no entry contains `d`; in particular an entry
never reports its plant on its own end date. -/
theorem getSnapshot_first_match (timeline : List (String × List TimelineEntry))
    (p d : String) (entries : List TimelineEntry)
    (h : timeline.lookup p = some entries) :
    (getSnapshot timeline d).lookup p =
      some ((entries.find? (entryMatches d)).map TimelineEntry.plant)
    ∧ ((∀ e ∈ entries, ¬ e.containsDate d) → (getSnapshot timeline d).lookup p = some none)
    ∧ (∀ e ∈ entries, d = e.end_ → ¬ e.containsDate d) := by
  have hmain : (getSnapshot timeline d).lookup p =
      some ((entries.find? (entryMatches d)).map TimelineEntry.plant) := by
    rw [getSnapshot_lookup, h]
    simp [snapEntry_eq_find?]
  refine ⟨hmain, ?_, ?_⟩
  · intro hnone
    have : entries.find? (entryMatches d) = none := by
      rw [List.find?_eq_none]
      intro e he
      have := hnone e he
      simpa [entryMatches, TimelineEntry.containsDate] using this
    rw [hmain, this]
    rfl
  · intro e _ hd hc
    exact absurd hc.2 (by rw [hd]; exact lt_irrefl _)

/-- Concrete instantiation of `getSnapshot_first_match`. -/
theorem getSnapshot_first_match_witness :
    ([("1", [TimelineEntry.mk "Tomatoes" "2026-03-01" "2026-05-01" "initial"
            ])] : List (String × List TimelineEntry)).lookup "1" =
        some [TimelineEntry.mk "Tomatoes" "2026-03-01" "2026-05-01" "initial"]
    ∧ (getSnapshot [("1", [TimelineEntry.mk "Tomatoes" "2026-03-01" "2026-05-01" "initial"])]
        "2026-04-15").lookup "1" =
      some ((([TimelineEntry.mk "Tomatoes" "2026-03-01" "2026-05-01" "initial"]).find?
        (entryMatches "2026-04-15")).map TimelineEntry.plant) :=
  ⟨by decide,
   (getSnapshot_first_match
      [("1", [TimelineEntry.mk "Tomatoes" "2026-03-01" "2026-05-01" "initial"])]
      "1" "2026-04-15"
      [TimelineEntry.mk "Tomatoes" "2026-03-01" "2026-05-01" "initial"]
      (by decide)).1⟩

/-! ## The painted grid -/

/-- The grid as the client holds it: `state.width`, `state.height` and the
cell array `state.cells` with `cells r c` standing for `state.cells[r][c]`.
Cell storage is modelled as a total function on integer indices; every read
the client performs is bounds-checked first. -/
structure GridState where
  width : Nat
  height : Nat
  cells : Int → Int → Nat

/-- `state.cells[r][c] = v`, the in-place single-cell write. -/
def setCell (g : GridState) (r c : Int) (v : Nat) : GridState :=
  { g with cells := fun r' c' => if r' = r ∧ c' = c then v else g.cells r' c' }

/-- Value `v` occurs in some cell of the grid proper (row below `height`,
column below `width`). -/
def gridOccurs (g : GridState) (v : Nat) : Prop :=
  ∃ r < g.height, ∃ c < g.width, g.cells (r : Nat) (c : Nat) = v

instance (g : GridState) (v : Nat) : Decidable (gridOccurs g v) := by
  unfold gridOccurs; infer_instance

/-- The number of grid cells holding value `v`: rows summed over the per-row
column counts. -/
def cellCount (g : GridState) (v : Nat) : Nat :=
  ((List.range g.height).map
    (fun r : Nat =>
      (List.range g.width).countP
        (fun c : Nat => decide (g.cells (r : Int) (c : Int) = v)))).sum

/-- One step of the `getPlotInfo` accumulation (src/web/app.js lines 121-132,
src/unnamed/part_001 lines 176-185): the body
`if (v >= 1 && v <= 254) plots[v] = (plots[v] || 0) + 1`.  The JavaScript
object is modelled by its count function; a key is present exactly when its
count is positive. -/
def plotInfoStep (plots : Nat → Nat) (v : Nat) : Nat → Nat :=
  if 1 ≤ v ∧ v ≤ 254 then Function.update plots v (plots v + 1) else plots

/-- The cell values in the order the nested loops of `getPlotInfo` visit them. -/
def GridState.cellList (g : GridState) : List Nat :=
  (List.range g.height).flatMap
    (fun r : Nat =>
      (List.range g.width).map (fun c : Nat => g.cells (r : Int) (c : Int)))

/-- `getPlotInfo` from src/web/app.js lines 121-132 and src/unnamed/part_001
lines 176-185, as the count function of the returned object. -/
def getPlotInfo (g : GridState) : Nat → Nat :=
  g.cellList.foldl plotInfoStep (fun _ => 0)

/-- `getNextPlotId` from src/web/app.js lines 134-140 and src/unnamed/part_001
lines 187-193: the first id in 1..254 whose count is falsy, `none` when the
loop falls through. -/
def getNextPlotId (g : GridState) : Option Nat :=
  (List.range' 1 254).find? (fun id => decide (getPlotInfo g id = 0))

theorem foldl_plotInfoStep (l : List Nat) (f : Nat → Nat) (v : Nat) :
    (l.foldl plotInfoStep f) v
      = f v + (if 1 ≤ v ∧ v ≤ 254 then l.count v else 0) := by
  induction l generalizing f with
  | nil => simp
  | cons a t ih =>
      rw [List.foldl_cons, ih]
      by_cases hv : 1 ≤ v ∧ v ≤ 254
      · by_cases hav : a = v
        · subst hav
          simp [plotInfoStep, hv, List.count_cons, Nat.add_comm, Nat.add_assoc,
            Nat.add_left_comm]
        · have : a ≠ v := hav
          by_cases ha : 1 ≤ a ∧ a ≤ 254
          · simp [plotInfoStep, ha, hv, Function.update, this, List.count_cons,
              Ne.symm hav]
          · simp [plotInfoStep, ha, hv, List.count_cons, Ne.symm hav]
      · by_cases ha : 1 ≤ a ∧ a ≤ 254
        · have hav : a ≠ v := by
            rintro rfl; exact hv ha
          simp [plotInfoStep, ha, hv, Function.update, hav, Ne.symm hav]
        · simp [plotInfoStep, ha, hv]

theorem cellList_count (g : GridState) (v : Nat) :
    g.cellList.count v = cellCount g v := by
  unfold GridState.cellList cellCount
  rw [List.count_flatMap]
  refine congrArg List.sum (List.map_congr_left ?_)
  intro r _
  simp only [Function.comp_apply, List.count_eq_countP, List.countP_map]
  refine List.countP_congr ?_
  intro c _
  by_cases h : g.cells (r : Int) (c : Int) = v <;> simp [Function.comp_apply, h]

theorem mem_cellList (g : GridState) (v : Nat) :
    v ∈ g.cellList ↔ gridOccurs g v := by
  unfold GridState.cellList gridOccurs
  simp only [List.mem_flatMap, List.mem_map, List.mem_range]

theorem getPlotInfo_eq (g : GridState) (w : Nat) :
    getPlotInfo g w = if 1 ≤ w ∧ w ≤ 254 then g.cellList.count w else 0 := by
  have := foldl_plotInfoStep g.cellList (fun _ => 0) w
  simpa [getPlotInfo] using this

theorem getPlotInfo_ne_zero_iff (g : GridState) (v : Nat) :
    getPlotInfo g v ≠ 0 ↔ 1 ≤ v ∧ v ≤ 254 ∧ gridOccurs g v := by
  rw [getPlotInfo_eq]
  by_cases hr : 1 ≤ v ∧ v ≤ 254
  · rw [if_pos hr]
    constructor
    · intro h
      exact ⟨hr.1, hr.2,
        (mem_cellList g v).1 (List.count_pos_iff.1 (Nat.pos_of_ne_zero h))⟩
    · rintro ⟨_, _, hocc⟩
      exact Nat.pos_iff_ne_zero.1 (List.count_pos_iff.2 ((mem_cellList g v).2 hocc))
  · rw [if_neg hr]
    constructor
    · intro h; exact absurd rfl h
    · rintro ⟨h1, h2, _⟩; exact absurd ⟨h1, h2⟩ hr

/-- C4: the object returned by getPlotInfo has as keys exactly the cell values
in 1..254 occurring in the grid (the sentinels 0 and 255 are never keys, no
matter how many cells hold them), and each key maps to the number of cells
holding that value. -/
theorem getPlotInfo_spec (g : GridState) (v : Nat) :
    (getPlotInfo g v ≠ 0 ↔ 1 ≤ v ∧ v ≤ 254 ∧ gridOccurs g v)
    ∧ (1 ≤ v → v ≤ 254 → getPlotInfo g v = cellCount g v)
    ∧ getPlotInfo g 0 = 0 ∧ getPlotInfo g 255 = 0 := by
  refine ⟨getPlotInfo_ne_zero_iff g v, ?_, ?_, ?_⟩
  · intro h1 h2
    rw [getPlotInfo_eq]
    simp [h1, h2, cellList_count]
  · rw [getPlotInfo_eq]; simp
  · rw [getPlotInfo_eq]; norm_num

/-- A small grid used to instantiate the grid theorems: plot 7 occupies the
upper-left cell, the lower-right cell is non-farm. -/
def sampleGrid : GridState :=
  ⟨2, 2, fun r c => if r = 0 ∧ c = 0 then 7 else if r = 1 ∧ c = 1 then 255 else 0⟩

/-- Concrete instantiation of `getPlotInfo_spec` on `sampleGrid`. -/
theorem getPlotInfo_spec_witness :
    getPlotInfo sampleGrid 7 = cellCount sampleGrid 7
    ∧ getPlotInfo sampleGrid 7 = 1 ∧ getPlotInfo sampleGrid 255 = 0 :=
  ⟨(getPlotInfo_spec sampleGrid 7).2.1 (by decide) (by decide), by decide, by decide⟩

theorem range'_find?_spec {p : Nat → Bool} : ∀ (n s id : Nat),
    (List.range' s n).find? p = some id →
      s ≤ id ∧ id < s + n ∧ p id = true ∧ ∀ j, s ≤ j → j < id → p j = false := by
  intro n
  induction n with
  | zero => intro s id h; exact absurd h (by simp)
  | succ n ih =>
      intro s id h
      rw [List.range'_succ, List.find?_cons] at h
      cases hps : p s with
      | true =>
          rw [hps] at h
          have hid : id = s := by
            have := h; simpa using this.symm
          subst hid
          exact ⟨le_refl _, by omega, hps, fun j h1 h2 => absurd (lt_of_le_of_lt h1 h2) (lt_irrefl _)⟩
      | false =>
          rw [hps] at h
          obtain ⟨h1, h2, h3, h4⟩ := ih (s + 1) id h
          refine ⟨by omega, by omega, h3, ?_⟩
          intro j hj1 hj2
          rcases Nat.eq_or_lt_of_le hj1 with hj | hj
          · rw [hj] at hps; exact hps
          · exact h4 j hj hj2

/-- C5: getNextPlotId returns the smallest id in 1..254 that no grid cell
holds, returns `none` exactly when every id in 1..254 occurs in the grid, and
never returns the sentinels 0 or 255. -/
theorem getNextPlotId_spec (g : GridState) :
    (∀ id, getNextPlotId g = some id →
        1 ≤ id ∧ id ≤ 254 ∧ ¬ gridOccurs g id ∧ ∀ j, 1 ≤ j → j < id → gridOccurs g j)
    ∧ (getNextPlotId g = none ↔ ∀ id, 1 ≤ id → id ≤ 254 → gridOccurs g id)
    ∧ getNextPlotId g ≠ some 0 ∧ getNextPlotId g ≠ some 255 := by
  have hbridge : ∀ id, 1 ≤ id → id ≤ 254 →
      ((getPlotInfo g id = 0) ↔ ¬ gridOccurs g id) := by
    intro id h1 h2
    constructor
    · intro hz hocc
      exact (not_not.2 hz) ((getPlotInfo_ne_zero_iff g id).2 ⟨h1, h2, hocc⟩)
    · intro hocc
      by_contra hz
      exact hocc ((getPlotInfo_ne_zero_iff g id).1 hz).2.2
  have hfirst : ∀ id, getNextPlotId g = some id →
      1 ≤ id ∧ id ≤ 254 ∧ ¬ gridOccurs g id ∧ ∀ j, 1 ≤ j → j < id → gridOccurs g j := by
    intro id h
    obtain ⟨h1, h2, h3, h4⟩ := range'_find?_spec 254 1 id h
    have h2' : id ≤ 254 := by omega
    refine ⟨h1, h2', (hbridge id h1 h2').1 (of_decide_eq_true h3), ?_⟩
    intro j hj1 hj2
    have hj2' : j ≤ 254 := by omega
    have := h4 j hj1 hj2
    have hz : ¬ (getPlotInfo g j = 0) := of_decide_eq_false this
    by_contra hocc
    exact hz ((hbridge j hj1 hj2').2 hocc)
  refine ⟨hfirst, ?_, ?_, ?_⟩
  · constructor
    · intro hnone id h1 h2
      have hmem : id ∈ List.range' 1 254 := by
        rw [List.mem_range'_1]; omega
      have := List.find?_eq_none.1 hnone id hmem
      have hz : ¬ (getPlotInfo g id = 0) := fun hh => this (decide_eq_true hh)
      by_contra hocc
      exact hz ((hbridge id h1 h2).2 hocc)
    · intro hall
      cases hfind : getNextPlotId g with
      | none => rfl
      | some id =>
          obtain ⟨h1, h2, h3, _⟩ := hfirst id hfind
          exact absurd (hall id h1 h2) h3
  · intro h
    obtain ⟨h1, _, _, _⟩ := hfirst 0 h
    exact absurd h1 (by omega)
  · intro h
    obtain ⟨_, h2, _, _⟩ := hfirst 255 h
    exact absurd h2 (by omega)

/-- Concrete instantiation of `getNextPlotId_spec` on `sampleGrid`. -/
theorem getNextPlotId_spec_witness :
    getNextPlotId sampleGrid = some 1 ∧ ¬ gridOccurs sampleGrid 1 :=
  ⟨by decide, ((getNextPlotId_spec sampleGrid).1 1 (by decide)).2.2.1⟩

/-! ## Plot painting brushes -/

/-- `plotHandleBrush` from src/web/app.js lines 327-338: on a non-farm cell
(value 255) the handler returns at once; otherwise it computes the paint value
from the paint mode (selected plot id in mode `plot`, 0 in mode `unassign`),
skips the write when the value is unchanged, and otherwise writes the cell
and queues one cell update for the server.  The returned pair is the grid
after the call and the queued update, `none` when nothing was queued. -/
def plotHandleBrush (g : GridState) (r c : Int) (plotPaint : String)
    (selectedPlotId : Nat) : GridState × Option (Int × Int × Nat) :=
  let current := g.cells r c
  if current = 255 then (g, none)
  else
    let v := if plotPaint = "plot" then selectedPlotId else 0
    if current = v then (g, none)
    else (setCell g r c v, some (r, c, v))

/-- `plotsBrush` from src/unnamed/part_001 lines 659-689: same guard on value
255; paints 0 in clear mode, else the selected plot id when one is selected
(`selectedPlotId` is `null` or a nonzero id in the JavaScript; both falsy
cases are rendered by 0 here), else returns without painting. -/
def plotsBrush (g : GridState) (r c : Int) (clearMode : Bool)
    (selectedPlotId : Nat) : GridState × Option (Int × Int × Nat) :=
  let current := g.cells r c
  if current = 255 then (g, none)
  else if clearMode then
    if current = 0 then (g, none) else (setCell g r c 0, some (r, c, 0))
  else if selectedPlotId ≠ 0 then
    if current = selectedPlotId then (g, none)
    else (setCell g r c selectedPlotId, some (r, c, selectedPlotId))
  else (g, none)

/-- C6: painting with the plot brush never touches a non-farm cell: when the
cell holds 255, both brush implementations leave the whole grid unchanged and
queue no cell update, for every paint mode, clear flag and selected plot id;
in particular the cell still holds 255 afterwards. -/
theorem brush_preserves_invalid (g : GridState) (r c : Int)
    (plotPaint : String) (sid : Nat) (clearMode : Bool) (sid' : Nat)
    (h : g.cells r c = 255) :
    plotHandleBrush g r c plotPaint sid = (g, none)
    ∧ plotsBrush g r c clearMode sid' = (g, none)
    ∧ (plotHandleBrush g r c plotPaint sid).1.cells r c = 255
    ∧ (plotsBrush g r c clearMode sid').1.cells r c = 255 := by
  refine ⟨?_, ?_, ?_, ?_⟩ <;> simp [plotHandleBrush, plotsBrush, h]

/-- Concrete instantiation of `brush_preserves_invalid`: the non-farm cell of
`sampleGrid` resists both brushes. -/
theorem brush_preserves_invalid_witness :
    sampleGrid.cells 1 1 = 255
    ∧ plotHandleBrush sampleGrid 1 1 "plot" 9 = (sampleGrid, none)
    ∧ plotsBrush sampleGrid 1 1 true 9 = (sampleGrid, none) :=
  ⟨by decide,
   (brush_preserves_invalid sampleGrid 1 1 "plot" 9 true 9 (by decide)).1,
   (brush_preserves_invalid sampleGrid 1 1 "plot" 9 true 9 (by decide)).2.1⟩

/-! ## Paint value selection (src/unnamed/part_000) -/

/-- Math.round of JavaScript: round half away from zero toward positive
infinity, exact on the rationals standing in for the parsed number. -/
def jsRound (q : ℚ) : ℤ := ⌊q + 1 / 2⌋

/-- `getPaintValue` from src/unnamed/part_000 lines 28-36.  The parse
`Number(plotIdInput.value)` is abstracted to `none` when `Number.isFinite`
fails (NaN or an infinity, in which case the code substitutes 1) and to
`some q` for a finite numeric value `q`. -/
def getPaintValue (paintType : String) (plotIdValue : Option ℚ) : ℤ :=
  if paintType = "unassigned" then 0
  else if paintType = "invalid" then 255
  else
    let id : ℚ := match plotIdValue with | none => 1 | some q => q
    max 1 (min 254 (jsRound id))

/-- C9: getPaintValue returns 0 for paint type `unassigned`, 255 for
`invalid`, and in every other mode an integer in 1..254 obtained by rounding
and clamping the entered id, with non-finite input falling back to 1: the
sentinels 0 and 255 are unreachable in plot mode. -/
theorem getPaintValue_spec (paintType : String) (q? : Option ℚ) :
    (paintType = "unassigned" → getPaintValue paintType q? = 0)
    ∧ (paintType = "invalid" ∧ paintType ≠ "unassigned" →
        getPaintValue paintType q? = 255)
    ∧ (paintType ≠ "unassigned" → paintType ≠ "invalid" →
        1 ≤ getPaintValue paintType q?
        ∧ getPaintValue paintType q? ≤ 254
        ∧ getPaintValue paintType q? ≠ 0
        ∧ getPaintValue paintType q? ≠ 255
        ∧ getPaintValue paintType q? = max 1 (min 254 (jsRound (q?.getD 1)))
        ∧ (q? = none → getPaintValue paintType q? = 1)) := by
  refine ⟨?_, ?_, ?_⟩
  · intro h; simp [getPaintValue, h]
  · rintro ⟨h1, h2⟩; simp [getPaintValue, h1, h2]
  · intro h1 h2
    have hval : getPaintValue paintType q?
        = max 1 (min 254 (jsRound (match q? with | none => 1 | some q => q))) := by
      simp [getPaintValue, h1, h2]
    have hlow : 1 ≤ getPaintValue paintType q? := by
      rw [hval]; exact le_max_left _ _
    have hhigh : getPaintValue paintType q? ≤ 254 := by
      rw [hval]
      exact max_le (by norm_num) (min_le_left _ _)
    refine ⟨hlow, hhigh, by omega, by omega, ?_, ?_⟩
    · rw [hval]; cases q? <;> rfl
    · rintro rfl
      rw [hval]
      norm_num [jsRound]

/-- Concrete instantiation of `getPaintValue_spec`: sentinel modes and the
clamping of an oversized plot id. -/
theorem getPaintValue_spec_witness :
    getPaintValue "unassigned" (some 9) = 0
    ∧ getPaintValue "invalid" (some 9) = 255
    ∧ 1 ≤ getPaintValue "plot" (some 500)
    ∧ getPaintValue "plot" (some 500) ≤ 254 :=
  ⟨(getPaintValue_spec "unassigned" (some 9)).1 rfl,
   (getPaintValue_spec "invalid" (some 9)).2.1 ⟨rfl, by decide⟩,
   ((getPaintValue_spec "plot" (some 500)).2.2 (by decide) (by decide)).1,
   ((getPaintValue_spec "plot" (some 500)).2.2 (by decide) (by decide)).2.1⟩

/-! ## The ranked plant list -/

/-- The add-plant handlers (src/web/app.js lines 607-612, src/unnamed/part_001
lines 951-966, button and double-click alike): a falsy (empty) or already
selected name is ignored, otherwise the name is pushed at the end. -/
def addPlant (selectedPlants : List String) (name : String) : List String :=
  if name = "" ∨ name ∈ selectedPlants then selectedPlants
  else selectedPlants ++ [name]

/-- The delete button handler: `selectedPlants.splice(i, 1)`. -/
def removePlant (selectedPlants : List String) (i : Nat) : List String :=
  selectedPlants.eraseIdx i

/-- The drag-and-drop handler of both files: `splice(from, 1)` removes the
dragged entry, then `splice(i, 0, moved)` re-inserts it at the drop index.
The handler fires with `from` the index of a rendered item, so the
out-of-range read (where the JavaScript would splice in `undefined`) does not
occur and is modelled as a no-op. -/
def movePlant (l : List String) (src tgt : Nat) : List String :=
  if src = tgt then l
  else
    match l.get? src with
    | none => l
    | some moved => (l.eraseIdx src).insertIdx tgt moved

/-- The up and down buttons of src/web/app.js lines 564-580: a destructuring
swap of two positions, both values read from the list before either write. -/
def swapPlants (l : List String) (i j : Nat) : List String :=
  (l.set i (l.getD j "")).set j (l.getD i "")

/-- The `.farm` import handlers (src/unnamed/part_001 lines 1113-1148 and
src/web/app.js lines 802-859): `if (meta.selectedPlants) selectedPlants =
meta.selectedPlants` replaces the list wholesale with the file content;
`none` models metadata without the field (falsy, so the list is kept). -/
def importSelectedPlants (selectedPlants : List String)
    (metaSelectedPlants : Option (List String)) : List String :=
  match metaSelectedPlants with
  | some l => l
  | none => selectedPlants

/-- C8 counterexample: importing a crafted `.farm` file whose metadata lists
the same plant twice leaves the selected list with a duplicate; the import
handler performs no deduplication, so the claimed invariant fails. -/
theorem importSelectedPlants_breaks_nodup :
    importSelectedPlants [] (some ["Tomatoes", "Tomatoes"])
      = ["Tomatoes", "Tomatoes"]
    ∧ ¬ (importSelectedPlants [] (some ["Tomatoes", "Tomatoes"])).Nodup :=
  ⟨rfl, by decide⟩

theorem count_set_add (l : List String) {i : Nat} (h : i < l.length)
    (b x : String) :
    (l.set i b).count x + (if l[i] = x then 1 else 0)
      = l.count x + (if b = x then 1 else 0) := by
  rw [List.set_eq_take_cons_drop b h]
  conv_rhs => rw [← List.take_append_drop i l, List.drop_eq_getElem_cons h]
  rw [List.count_append, List.count_append, List.count_cons, List.count_cons]
  by_cases h1 : l[i] = x <;> by_cases h2 : b = x <;>
    simp [h1, h2] <;> omega

theorem swapPlants_perm (l : List String) (i j : Nat)
    (hi : i < l.length) (hj : j < l.length) :
    (swapPlants l i j).Perm l := by
  rw [List.perm_iff_count]
  intro x
  unfold swapPlants
  have ha : l.getD i "" = l[i] := List.getD_eq_getElem l "" hi
  have hb : l.getD j "" = l[j] := List.getD_eq_getElem l "" hj
  rw [ha, hb]
  have hj1 : j < (l.set i l[j]).length := by simpa using hj
  have e2 := count_set_add (l.set i l[j]) hj1 l[i] x
  have e1 := count_set_add l hi l[j] x
  by_cases hij : i = j
  · subst hij
    have hself : (l.set i l[i])[i] = l[i] := List.getElem_set_self hj1
    rw [hself] at e2
    omega
  · have hne : (l.set i l[j])[j] = l[j] := List.getElem_set_ne hij hj1
    rw [hne] at e2
    omega

theorem count_eraseIdx_decomp (l : List String) {src : Nat}
    (h : src < l.length) (x : String) :
    l.count x = (l.take src).count x + (l.drop (src + 1)).count x
      + (if l[src] = x then 1 else 0) := by
  conv_lhs => rw [← List.take_append_drop src l, List.drop_eq_getElem_cons h]
  rw [List.count_append, List.count_cons]
  by_cases h1 : l[src] = x
  all_goals simp [h1]
  all_goals omega

theorem not_mem_eraseIdx_self (l : List String) {src : Nat}
    (h : src < l.length) (hnd : l.Nodup) : l[src] ∉ l.eraseIdx src := by
  intro hmem
  have hone : l.count l[src] = 1 :=
    List.count_eq_one_of_mem hnd (l.getElem_mem h)
  have hd := count_eraseIdx_decomp l h l[src]
  rw [if_pos rfl] at hd
  have hpos : 0 < (l.eraseIdx src).count l[src] :=
    List.count_pos_iff.2 hmem
  rw [List.eraseIdx_eq_take_drop_succ, List.count_append] at hpos
  omega

/-- C8 (amended): adding (a no-op for an already present name), removing and
reordering (drag-drop and up/down swaps) preserve the duplicate-free
invariant of the selected plant list, but the `.farm` import replaces the
list with the file metadata verbatim, so after an import the invariant holds
exactly when the imported list itself is duplicate-free. -/
theorem plantList_ops_nodup :
    (∀ (l : List String) name, name ∈ l → addPlant l name = l)
    ∧ (∀ (l : List String) name, l.Nodup → (addPlant l name).Nodup)
    ∧ (∀ (l : List String) i, l.Nodup → (removePlant l i).Nodup)
    ∧ (∀ (l : List String) src tgt, l.Nodup → (movePlant l src tgt).Nodup)
    ∧ (∀ (l : List String) i j, i < l.length → j < l.length → l.Nodup →
        (swapPlants l i j).Nodup)
    ∧ (∀ (l m : List String),
        (importSelectedPlants l (some m)).Nodup ↔ m.Nodup)
    ∧ (∀ (l : List String), l.Nodup → (importSelectedPlants l none).Nodup) := by
  refine ⟨?_, ?_, ?_, ?_, ?_, ?_, ?_⟩
  · intro l name hmem
    unfold addPlant
    rw [if_pos (Or.inr hmem)]
  · intro l name hnd
    unfold addPlant
    by_cases h : name = "" ∨ name ∈ l
    · rw [if_pos h]; exact hnd
    · rw [if_neg h]
      have hnm : name ∉ l := fun hm => h (Or.inr hm)
      simp [List.nodup_append, hnd, hnm]
  · intro l i hnd
    exact (l.eraseIdx_sublist i).nodup hnd
  · intro l src tgt hnd
    unfold movePlant
    by_cases hst : src = tgt
    · rw [if_pos hst]; exact hnd
    · rw [if_neg hst]
      cases hs : l.get? src with
      | none => exact hnd
      | some moved =>
          show ((l.eraseIdx src).insertIdx tgt moved).Nodup
          have hsrc : src < l.length := by
            by_contra hge
            rw [List.get?_eq_getElem?, List.getElem?_eq_none (by omega)] at hs
            exact absurd hs (by simp)
          have hmoved : moved = l[src] := by
            rw [List.get?_eq_getElem?, List.getElem?_eq_getElem hsrc] at hs
            exact (Option.some.inj hs).symm
          have hnde : (l.eraseIdx src).Nodup := (l.eraseIdx_sublist src).nodup hnd
          by_cases htgt : tgt ≤ (l.eraseIdx src).length
          · have hperm := List.perm_insertIdx moved (l.eraseIdx src) htgt
            have hnd' : (moved :: l.eraseIdx src).Nodup := by
              rw [List.nodup_cons]
              exact ⟨by rw [hmoved]; exact not_mem_eraseIdx_self l hsrc hnd, hnde⟩
            exact hperm.symm.nodup hnd'
          · rw [List.insertIdx_of_length_lt _ _ _ (by omega)]
            exact hnde
  · intro l i j hi hj hnd
    exact (swapPlants_perm l i j hi hj).symm.nodup hnd
  · intro l m
    exact Iff.rfl
  · intro l hnd
    exact hnd

/-- Concrete instantiation of `plantList_ops_nodup`. -/
theorem plantList_ops_nodup_witness :
    addPlant ["Tomatoes"] "Tomatoes" = ["Tomatoes"]
    ∧ (addPlant ["Tomatoes"] "Basil").Nodup
    ∧ (movePlant ["Tomatoes", "Basil", "Corn"] 0 2).Nodup
    ∧ (swapPlants ["Tomatoes", "Basil"] 0 1).Nodup :=
  ⟨plantList_ops_nodup.1 ["Tomatoes"] "Tomatoes" (by decide),
   plantList_ops_nodup.2.1 ["Tomatoes"] "Basil" (by decide),
   plantList_ops_nodup.2.2.2.1 ["Tomatoes", "Basil", "Corn"] 0 2 (by decide),
   plantList_ops_nodup.2.2.2.2.1 ["Tomatoes", "Basil"] 0 1
     (by decide) (by decide) (by decide)⟩

/-! ## The planning engine contract

The `/api/plan` engine is not in the repository source; only its request and
response shapes are observable from the client.  The definitions below are
modelled from the spec and say so in their doc comments. -/

/-- Modelled from the spec: the AdjacencyEvent record of the data model, as
consumed by `showResults` in src/web/app.js lines 668-681.  The producing
Adjacency Scorer is absent from the source. -/
structure AdjacencyEvent where
  plot_a : Nat
  plot_b : Nat
  plant_a : String
  plant_b : String
  compatibility : Int
  overlap_start : String
  overlap_end : String
deriving DecidableEq, Repr

/-- Modelled from the spec: the compatibility matrix as consumed by
`showResults` (`cm.plants`, `cm.scores`). -/
structure CompatibilityMatrix where
  plants : List String
  scores : List (List Int)
deriving DecidableEq, Repr

/-- Modelled from the spec: the Plan aggregate of the response contract, with
the field names the client reads. -/
structure Plan where
  year : Int
  selected_plants : List String
  assigned : List String
  unassigned_plants : List String
  timeline : List (Nat × List TimelineEntry)
  adjacency_events : List AdjacencyEvent
  compatibility_matrix : CompatibilityMatrix
  score : Int

/-- Modelled from the spec: the intersection of two half-open date ranges,
nonempty exactly when the ranges intersect. -/
def overlapOf (ea eb : TimelineEntry) : Option (String × String) :=
  let s := max ea.start eb.start
  let e := min ea.end_ eb.end_
  if s < e then some (s, e) else none

/-- Modelled from the spec (section 4.3, Adjacency Scorer, absent from src):
for one spatially-adjacent plot pair, one event per pair of timeline entries
whose date ranges intersect, carrying the catalog compatibility of the two
plants and the intersection interval. -/
def eventsForPair (compat : String → String → Int)
    (tlOf : Nat → List TimelineEntry) (ab : Nat × Nat) : List AdjacencyEvent :=
  (tlOf ab.1).flatMap (fun ea =>
    (tlOf ab.2).filterMap (fun eb =>
      (overlapOf ea eb).map (fun se =>
        ⟨ab.1, ab.2, ea.plant, eb.plant, compat ea.plant eb.plant,
          se.1, se.2⟩)))

/-- Modelled from the spec: the Adjacency Scorer walks all adjacent plot
pairs, emits the events of each pair and accumulates their compatibility
values into the running total in the same pass. -/
def adjacencyScore (compat : String → String → Int)
    (adjPairs : List (Nat × Nat)) (tlOf : Nat → List TimelineEntry) :
    List AdjacencyEvent × Int :=
  adjPairs.foldl
    (fun acc ab =>
      let evs := eventsForPair compat tlOf ab
      (acc.1 ++ evs, acc.2 + (evs.map AdjacencyEvent.compatibility).sum))
    ([], 0)

/-- Modelled from the spec: the greedy one-pass Plot Assignment Engine of
section 4.2.  The per-plant plot and window choice of step b is flagged as
unverified in section 9, so it is a parameter `place` returning the chosen
plot with the committed entries, or `none` when no plot has a feasible
window; the one-pass rank-order fold and the bookkeeping of assigned and
unassigned plants follow the spec text. -/
def assign
    (place : List (Nat × List TimelineEntry) → String →
      Option (Nat × List TimelineEntry))
    (plots : List Nat) (plants : List String) :
    List (Nat × List TimelineEntry) × List String × List String :=
  plants.foldl
    (fun acc plant =>
      match place acc.1 plant with
      | some (plotId, entries) =>
          (acc.1.map (fun pe =>
              if pe.1 = plotId then (pe.1, pe.2 ++ entries) else pe),
            acc.2.1 ++ [plant], acc.2.2)
      | none => (acc.1, acc.2.1, acc.2.2 ++ [plant]))
    (plots.map (fun pid => (pid, [])), [], [])

/-- Modelled from the spec: the Plan Assembler packages the engine outputs
into the response shape with no further computation. -/
def planEngine (compat : String → String → Int)
    (adjPairs : List (Nat × Nat))
    (place : List (Nat × List TimelineEntry) → String →
      Option (Nat × List TimelineEntry))
    (plots : List Nat) (plants : List String) (year : Int) : Plan :=
  let asn := assign place plots plants
  let scored := adjacencyScore compat adjPairs
    (fun pid => ((asn.1.lookup pid).getD []))
  { year := year
    selected_plants := plants
    assigned := asn.2.1
    unassigned_plants := asn.2.2
    timeline := asn.1
    adjacency_events := scored.1
    compatibility_matrix :=
      ⟨plants.dedup, plants.dedup.map (fun a => plants.dedup.map (compat a))⟩
    score := scored.2 }

theorem adjacencyScore_snd_eq (compat : String → String → Int)
    (adjPairs : List (Nat × Nat)) (tlOf : Nat → List TimelineEntry) :
    ∀ acc : List AdjacencyEvent × Int,
      acc.2 = (acc.1.map AdjacencyEvent.compatibility).sum →
      (adjPairs.foldl
        (fun acc ab =>
          let evs := eventsForPair compat tlOf ab
          (acc.1 ++ evs, acc.2 + (evs.map AdjacencyEvent.compatibility).sum))
        acc).2
      = ((adjPairs.foldl
          (fun acc ab =>
            let evs := eventsForPair compat tlOf ab
            (acc.1 ++ evs, acc.2 + (evs.map AdjacencyEvent.compatibility).sum))
          acc).1.map AdjacencyEvent.compatibility).sum := by
  induction adjPairs with
  | nil => intro acc h; exact h
  | cons ab rest ih =>
      intro acc h
      rw [List.foldl_cons]
      refine ih _ ?_
      simp only [List.map_append, List.sum_append]
      omega

/-- C3: for every plan the modelled engine returns, the score field is the
sum of the compatibility values over the adjacency_events list, and a plan
with no adjacency events scores 0. -/
theorem plan_score_consistent (compat : String → String → Int)
    (adjPairs : List (Nat × Nat))
    (place : List (Nat × List TimelineEntry) → String →
      Option (Nat × List TimelineEntry))
    (plots : List Nat) (plants : List String) (year : Int) :
    (planEngine compat adjPairs place plots plants year).score
      = ((planEngine compat adjPairs place plots plants year).adjacency_events.map
          AdjacencyEvent.compatibility).sum
    ∧ ((planEngine compat adjPairs place plots plants year).adjacency_events = []
        → (planEngine compat adjPairs place plots plants year).score = 0) := by
  have hmain : (planEngine compat adjPairs place plots plants year).score
      = ((planEngine compat adjPairs place plots plants year).adjacency_events.map
          AdjacencyEvent.compatibility).sum := by
    show (adjacencyScore compat adjPairs _).2
        = ((adjacencyScore compat adjPairs _).1.map AdjacencyEvent.compatibility).sum
    unfold adjacencyScore
    exact adjacencyScore_snd_eq compat adjPairs _ ([], 0) rfl
  refine ⟨hmain, ?_⟩
  intro hempty
  rw [hmain, hempty]
  rfl

/-- Concrete instantiation of `plan_score_consistent`: with no adjacent plot
pairs the plan has no events and scores 0. -/
theorem plan_score_consistent_witness :
    (planEngine (fun _ _ => 2) [] (fun _ _ => none) [1, 2] ["Tomatoes"] 2026).adjacency_events = []
    ∧ (planEngine (fun _ _ => 2) [] (fun _ _ => none) [1, 2] ["Tomatoes"] 2026).score = 0 :=
  ⟨rfl,
   (plan_score_consistent (fun _ _ => 2) [] (fun _ _ => none) [1, 2] ["Tomatoes"] 2026).2 rfl⟩

theorem lookup_map_const_nil (plots : List Nat) (pid : Nat) :
    (((plots.map (fun p => (p, ([] : List TimelineEntry)))).lookup pid).getD [])
      = [] := by
  induction plots with
  | nil => rfl
  | cons a rest ih =>
      by_cases h : pid = a
      · simp [List.lookup, h]
      · have h' : (pid == a) = false := by simpa using h
        simpa [List.lookup, h'] using ih

theorem adjacencyScore_empty_tl (compat : String → String → Int)
    (adjPairs : List (Nat × Nat)) (tlOf : Nat → List TimelineEntry)
    (h : ∀ pid, tlOf pid = []) :
    adjacencyScore compat adjPairs tlOf = ([], 0) := by
  unfold adjacencyScore
  suffices hstep : ∀ acc : List AdjacencyEvent × Int,
      adjPairs.foldl
        (fun acc ab =>
          let evs := eventsForPair compat tlOf ab
          (acc.1 ++ evs, acc.2 + (evs.map AdjacencyEvent.compatibility).sum))
        acc = acc by
    exact hstep ([], 0)
  induction adjPairs with
  | nil => intro acc; rfl
  | cons ab rest ih =>
      intro acc
      rw [List.foldl_cons]
      have hev : eventsForPair compat tlOf ab = [] := by
        simp [eventsForPair, h]
      simp only [hev, List.append_nil, List.map_nil, List.sum_nil, Int.add_zero]
      exact ih acc

/-- C7: invoking the modelled plan engine with an empty plant list yields an
empty, valid plan rather than an error: the echoed selection, the assigned
and unassigned lists and the adjacency events are empty, every plot timeline
is empty, and the score is 0, for every placement policy, plot set and
adjacency relation. -/
theorem planEngine_empty_plants (compat : String → String → Int)
    (adjPairs : List (Nat × Nat))
    (place : List (Nat × List TimelineEntry) → String →
      Option (Nat × List TimelineEntry))
    (plots : List Nat) (year : Int) :
    (planEngine compat adjPairs place plots [] year).selected_plants = []
    ∧ (planEngine compat adjPairs place plots [] year).assigned = []
    ∧ (planEngine compat adjPairs place plots [] year).unassigned_plants = []
    ∧ (planEngine compat adjPairs place plots [] year).timeline
        = plots.map (fun pid => (pid, []))
    ∧ (∀ pe ∈ (planEngine compat adjPairs place plots [] year).timeline,
        pe.2 = [])
    ∧ (planEngine compat adjPairs place plots [] year).adjacency_events = []
    ∧ (planEngine compat adjPairs place plots [] year).score = 0 := by
  have hasn : assign place plots []
      = (plots.map (fun pid => (pid, ([] : List TimelineEntry))), [], []) := rfl
  have htl : ∀ pid, (((assign place plots []).1.lookup pid).getD []) = [] := by
    intro pid
    rw [hasn]
    exact lookup_map_const_nil plots pid
  have hscore : adjacencyScore compat adjPairs
      (fun pid => (((assign place plots []).1.lookup pid).getD [])) = ([], 0) :=
    adjacencyScore_empty_tl _ _ _ htl
  refine ⟨rfl, rfl, rfl, rfl, ?_, ?_, ?_⟩
  · intro pe hpe
    have : pe ∈ plots.map (fun pid => (pid, ([] : List TimelineEntry))) := hpe
    obtain ⟨pid, _, rfl⟩ := List.mem_map.1 this
    rfl
  · show (adjacencyScore compat adjPairs
      (fun pid => (((assign place plots []).1.lookup pid).getD []))).1 = []
    rw [hscore]
  · show (adjacencyScore compat adjPairs
      (fun pid => (((assign place plots []).1.lookup pid).getD []))).2 = 0
    rw [hscore]

/-! ## Flood fill (src/unnamed/part_001 lines 138-158) -/

/-- The four edge-sharing neighbour offsets of the flood fill, in source
order. -/
def neighborDeltas : List (Int × Int) := [(-1, 0), (1, 0), (0, -1), (0, 1)]

/-- In-bounds test of a position against the grid dimensions. -/
def inBounds (g : GridState) (p : Int × Int) : Prop :=
  0 ≤ p.1 ∧ p.1 < (g.height : Int) ∧ 0 ≤ p.2 ∧ p.2 < (g.width : Int)

instance (g : GridState) (p : Int × Int) : Decidable (inBounds g p) := by
  unfold inBounds; infer_instance

/-- The neighbour scan of one dequeued cell, folding the loop body
`if (nr >= 0 && nr < state.height && nc >= 0 && nc < state.width &&
state.cells[nr][nc] === target)` over a list of offsets: when the neighbour
is in bounds and still holds the target value in the current grid, paint it
and append it to the newly painted list. -/
def visitFoldAux (target value : Nat) (p : Int × Int) (ds : List (Int × Int))
    (acc : GridState × List (Int × Int)) : GridState × List (Int × Int) :=
  ds.foldl
    (fun acc d =>
      let n : Int × Int := (p.1 + d.1, p.2 + d.2)
      if 0 ≤ n.1 ∧ n.1 < (acc.1.height : Int) ∧ 0 ≤ n.2
          ∧ n.2 < (acc.1.width : Int) ∧ acc.1.cells n.1 n.2 = target
      then (setCell acc.1 n.1 n.2 value, acc.2 ++ [n])
      else acc)
    acc

/-- The four-direction scan of one dequeued cell. -/
def visitNeighbors (target value : Nat) (p : Int × Int) (g : GridState) :
    GridState × List (Int × Int) :=
  visitFoldAux target value p neighborDeltas (g, [])

/-- The queue scan `for (let i = 0; i < q.length; i++)` of `fillRegionLocal`:
process the queue front, enqueue the newly painted neighbours at the back.
The fuel argument only bounds the number of iterations; `fillRegionLocal`
supplies enough for the loop to drain its queue, since every enqueued cell
was repainted away from the target value at enqueue time, so at most
height times width cells are ever enqueued. -/
def fillLoop (target value : Nat) :
    Nat → GridState → List (Int × Int) → List (Int × Int) →
      GridState × List (Int × Int)
  | 0, g, _, changed => (g, changed)
  | _ + 1, g, [], changed => (g, changed)
  | fuel + 1, g, p :: rest, changed =>
      let res := visitNeighbors target value p g
      fillLoop target value fuel res.1 (rest ++ res.2) (changed ++ res.2)

/-- `fillRegionLocal` from src/unnamed/part_001 lines 138-158: guard the
clicked position against the grid bounds, no-op when the clicked cell
already holds the paint value, otherwise paint the clicked cell and flood
outward through 4-connected cells holding its original value.  Returns the
grid after the fill together with the `changed` coordinate list the
JavaScript function returns (it mutates `state.cells` in place). -/
def fillRegionLocal (g : GridState) (row col : Int) (value : Nat) :
    GridState × List (Int × Int) :=
  if row < 0 ∨ col < 0 ∨ (g.height : Int) ≤ row ∨ (g.width : Int) ≤ col then
    (g, [])
  else
    let target := g.cells row col
    if target = value then (g, [])
    else
      fillLoop target value (g.height * g.width + 1)
        (setCell g row col value) [(row, col)] [(row, col)]

/-- One flood step: `q` is an edge neighbour of `p`, in bounds, holding the
target value in the original grid. -/
def fillStep (g : GridState) (target : Nat) (p q : Int × Int) : Prop :=
  (∃ d ∈ neighborDeltas, q = (p.1 + d.1, p.2 + d.2))
  ∧ inBounds g q ∧ g.cells q.1 q.2 = target

/-- The 4-connected component of cells holding the clicked cell value that
contains the clicked cell, as reachability through `fillStep` on the
original grid. -/
def fillReach (g : GridState) (s : Int × Int) (p : Int × Int) : Prop :=
  Relation.ReflTransGen (fillStep g (g.cells s.1 s.2)) s p

/-- The painted overlay the fill loop maintains: the working grid has the
original dimensions, holds `value` exactly on the painted positions and the
original cell value elsewhere. -/
def Agrees (G : GridState) (value : Nat) (g : GridState)
    (P : List (Int × Int)) : Prop :=
  g.width = G.width ∧ g.height = G.height ∧
  ∀ r c : Int, g.cells r c = if (r, c) ∈ P then value else G.cells r c

/-- The in-bounds positions of the original grid holding the target value. -/
def targetFin (G : GridState) (t : Nat) : Finset (Int × Int) :=
  ((Finset.range G.height ×ˢ Finset.range G.width).filter
    (fun rc => G.cells (rc.1 : Int) (rc.2 : Int) = t)).image
    (fun rc => ((rc.1 : Int), (rc.2 : Int)))

theorem mem_targetFin (G : GridState) (t : Nat) (p : Int × Int) :
    p ∈ targetFin G t ↔ inBounds G p ∧ G.cells p.1 p.2 = t := by
  unfold targetFin inBounds
  simp only [Finset.mem_image, Finset.mem_filter, Finset.mem_product,
    Finset.mem_range]
  constructor
  · rintro ⟨⟨a, b⟩, ⟨⟨ha, hb⟩, hc⟩, rfl⟩
    refine ⟨⟨?_, ?_, ?_, ?_⟩, hc⟩ <;> simp <;> omega
  · rintro ⟨⟨h1, h2, h3, h4⟩, hc⟩
    refine ⟨(p.1.toNat, p.2.toNat), ⟨⟨?_, ?_⟩, ?_⟩, ?_⟩
    · omega
    · omega
    · simpa [Int.toNat_of_nonneg h1, Int.toNat_of_nonneg h3] using hc
    · simp [Int.toNat_of_nonneg h1, Int.toNat_of_nonneg h3]

theorem targetFin_card_le (G : GridState) (t : Nat) :
    (targetFin G t).card ≤ G.height * G.width := by
  unfold targetFin
  calc (((Finset.range G.height ×ˢ Finset.range G.width).filter
          (fun rc => G.cells (rc.1 : Int) (rc.2 : Int) = t)).image
          (fun rc : Nat × Nat => ((rc.1 : Int), (rc.2 : Int)))).card
      ≤ ((Finset.range G.height ×ˢ Finset.range G.width).filter
          (fun rc => G.cells (rc.1 : Int) (rc.2 : Int) = t)).card :=
        Finset.card_image_le
    _ ≤ (Finset.range G.height ×ˢ Finset.range G.width).card :=
        Finset.card_filter_le _ _
    _ = G.height * G.width := by
        rw [Finset.card_product, Finset.card_range, Finset.card_range]

theorem changed_length_le_card (G : GridState) (t : Nat)
    (changed : List (Int × Int)) (hnd : changed.Nodup)
    (hsub : ∀ p ∈ changed, inBounds G p ∧ G.cells p.1 p.2 = t) :
    changed.length ≤ (targetFin G t).card := by
  classical
  rw [← List.toFinset_card_of_nodup hnd]
  apply Finset.card_le_card
  intro x hx
  rw [List.mem_toFinset] at hx
  exact (mem_targetFin G t x).2 (hsub x hx)

theorem nodup_append_singleton {α : Type} {l : List α} {a : α}
    (h : l.Nodup) (ha : a ∉ l) : (l ++ [a]).Nodup := by
  rw [List.nodup_append]
  refine ⟨h, List.nodup_singleton a, ?_⟩
  intro x hx hx'
  rw [List.mem_singleton] at hx'
  subst hx'
  exact ha hx

theorem visitFoldAux_spec (G : GridState) (t v : Nat) (hne : t ≠ v)
    (p : Int × Int) :
    ∀ (ds : List (Int × Int)) (g : GridState) (ns changed : List (Int × Int)),
      Agrees G v g (changed ++ ns) → (changed ++ ns).Nodup →
      Agrees G v (visitFoldAux t v p ds (g, ns)).1
          (changed ++ (visitFoldAux t v p ds (g, ns)).2)
      ∧ (changed ++ (visitFoldAux t v p ds (g, ns)).2).Nodup
      ∧ ∀ m : Int × Int,
          (m ∈ (visitFoldAux t v p ds (g, ns)).2 ↔ m ∈ ns ∨
            ((∃ d ∈ ds, m = (p.1 + d.1, p.2 + d.2))
              ∧ inBounds G m ∧ G.cells m.1 m.2 = t ∧ m ∉ changed ∧ m ∉ ns)) := by
  intro ds
  induction ds with
  | nil =>
      intro g ns changed hag hnd
      refine ⟨hag, hnd, ?_⟩
      intro m
      simp [visitFoldAux]
  | cons d ds ih =>
      intro g ns changed hag hnd
      obtain ⟨hw, hh, hcells⟩ := hag
      have hstep : visitFoldAux t v p (d :: ds) (g, ns)
          = visitFoldAux t v p ds
              (if 0 ≤ p.1 + d.1 ∧ p.1 + d.1 < (g.height : Int) ∧ 0 ≤ p.2 + d.2
                  ∧ p.2 + d.2 < (g.width : Int)
                  ∧ g.cells (p.1 + d.1) (p.2 + d.2) = t
               then (setCell g (p.1 + d.1) (p.2 + d.2) v,
                      ns ++ [(p.1 + d.1, p.2 + d.2)])
               else (g, ns)) := rfl
      have hcond_iff : (0 ≤ p.1 + d.1 ∧ p.1 + d.1 < (g.height : Int)
            ∧ 0 ≤ p.2 + d.2 ∧ p.2 + d.2 < (g.width : Int)
            ∧ g.cells (p.1 + d.1) (p.2 + d.2) = t)
          ↔ (inBounds G (p.1 + d.1, p.2 + d.2)
              ∧ G.cells (p.1 + d.1) (p.2 + d.2) = t
              ∧ (p.1 + d.1, p.2 + d.2) ∉ changed ++ ns) := by
        rw [hw, hh]
        constructor
        · rintro ⟨h1, h2, h3, h4, h5⟩
          have hnotin : (p.1 + d.1, p.2 + d.2) ∉ changed ++ ns := by
            intro hmem
            rw [hcells (p.1 + d.1) (p.2 + d.2), if_pos hmem] at h5
            exact hne h5.symm
          have horig : G.cells (p.1 + d.1) (p.2 + d.2) = t := by
            have hx := hcells (p.1 + d.1) (p.2 + d.2)
            rw [if_neg hnotin] at hx
            rw [← hx]
            exact h5
          exact ⟨⟨h1, h2, h3, h4⟩, horig, hnotin⟩
        · rintro ⟨⟨h1, h2, h3, h4⟩, h5, h6⟩
          refine ⟨h1, h2, h3, h4, ?_⟩
          rw [hcells (p.1 + d.1) (p.2 + d.2), if_neg h6]
          exact h5
      by_cases hc : 0 ≤ p.1 + d.1 ∧ p.1 + d.1 < (g.height : Int)
          ∧ 0 ≤ p.2 + d.2 ∧ p.2 + d.2 < (g.width : Int)
          ∧ g.cells (p.1 + d.1) (p.2 + d.2) = t
      · obtain ⟨hinb, htar, hnotin⟩ := hcond_iff.1 hc
        have hnc2 : (p.1 + d.1, p.2 + d.2) ∉ changed :=
          fun hx => hnotin (List.mem_append.2 (Or.inl hx))
        have hnn2 : (p.1 + d.1, p.2 + d.2) ∉ ns :=
          fun hx => hnotin (List.mem_append.2 (Or.inr hx))
        rw [hstep, if_pos hc]
        have hag' : Agrees G v (setCell g (p.1 + d.1) (p.2 + d.2) v)
            (changed ++ (ns ++ [(p.1 + d.1, p.2 + d.2)])) := by
          refine ⟨hw, hh, ?_⟩
          intro r c
          show (if r = p.1 + d.1 ∧ c = p.2 + d.2 then v else g.cells r c) = _
          by_cases hrc : (r, c) = (p.1 + d.1, p.2 + d.2)
          · obtain ⟨hr, hcc⟩ := Prod.mk.injEq .. ▸ hrc
            have hmem : (r, c) ∈ changed ++ (ns ++ [(p.1 + d.1, p.2 + d.2)]) := by
              simp [hrc]
            rw [if_pos ⟨hr, hcc⟩, if_pos hmem]
          · have hrc' : ¬(r = p.1 + d.1 ∧ c = p.2 + d.2) := by
              intro hx
              exact hrc (by rw [hx.1, hx.2])
            have hmem_iff : ((r, c) ∈ changed ++ (ns ++ [(p.1 + d.1, p.2 + d.2)]))
                ↔ ((r, c) ∈ changed ++ ns) := by
              simp [List.mem_append, hrc]
            rw [if_neg hrc', hcells r c, if_congr hmem_iff rfl rfl]
        have hnd' : (changed ++ (ns ++ [(p.1 + d.1, p.2 + d.2)])).Nodup := by
          rw [← List.append_assoc]
          exact nodup_append_singleton hnd hnotin
        obtain ⟨ihag, ihnd, ihmem⟩ :=
          ih (setCell g (p.1 + d.1) (p.2 + d.2) v)
            (ns ++ [(p.1 + d.1, p.2 + d.2)]) changed hag' hnd'
        refine ⟨ihag, ihnd, ?_⟩
        intro m
        rw [ihmem m]
        simp only [List.mem_append, List.mem_singleton, List.mem_cons,
          List.not_mem_nil, or_false]
        constructor
        · rintro ((hmns | hmn) | ⟨⟨d', hd', hmd⟩, hinB, htarm, hnc, hnn⟩)
          · exact Or.inl hmns
          · subst hmn
            exact Or.inr ⟨⟨d, Or.inl rfl, rfl⟩, hinb, htar, hnc2, hnn2⟩
          · have hnotP : m ∉ ns := fun hx => hnn (Or.inl hx)
            exact Or.inr ⟨⟨d', Or.inr hd', hmd⟩, hinB, htarm, hnc, hnotP⟩
        · rintro (hmns | ⟨⟨d', hd', hmd⟩, hinB, htarm, hnc, hnotP⟩)
          · exact Or.inl (Or.inl hmns)
          · rcases hd' with hd' | hd'
            · subst hd'
              exact Or.inl (Or.inr hmd)
            · by_cases hmn : m = (p.1 + d.1, p.2 + d.2)
              · exact Or.inl (Or.inr hmn)
              · exact Or.inr ⟨⟨d', hd', hmd⟩, hinB, htarm, hnc,
                  fun hx => (by
                    rcases hx with hx | hx
                    · exact hnotP hx
                    · exact hmn hx)⟩
      · rw [hstep, if_neg hc]
        obtain ⟨ihag, ihnd, ihmem⟩ := ih g ns changed ⟨hw, hh, hcells⟩ hnd
        refine ⟨ihag, ihnd, ?_⟩
        intro m
        rw [ihmem m]
        simp only [List.mem_cons]
        constructor
        · rintro (hmns | ⟨⟨d', hd', hmd⟩, hinB, htarm, hnc, hnn⟩)
          · exact Or.inl hmns
          · exact Or.inr ⟨⟨d', Or.inr hd', hmd⟩, hinB, htarm, hnc, hnn⟩
        · rintro (hmns | ⟨⟨d', hd', hmd⟩, hinB, htarm, hnc, hnn⟩)
          · exact Or.inl hmns
          · rcases hd' with hd' | hd'
            · subst hd'
              subst hmd
              exact absurd (hcond_iff.2
                ⟨hinB, htarm, fun hx => (by
                  rcases List.mem_append.1 hx with hx | hx
                  · exact hnc hx
                  · exact hnn hx)⟩) hc
            · exact Or.inr ⟨⟨d', hd', hmd⟩, hinB, htarm, hnc, hnn⟩

theorem visitNeighbors_spec (G : GridState) (t v : Nat) (hne : t ≠ v)
    (p : Int × Int) (g : GridState) (changed : List (Int × Int))
    (hag : Agrees G v g changed) (hnd : changed.Nodup) :
    Agrees G v (visitNeighbors t v p g).1
        (changed ++ (visitNeighbors t v p g).2)
    ∧ (changed ++ (visitNeighbors t v p g).2).Nodup
    ∧ ∀ m : Int × Int,
        (m ∈ (visitNeighbors t v p g).2 ↔
          (∃ d ∈ neighborDeltas, m = (p.1 + d.1, p.2 + d.2))
          ∧ inBounds G m ∧ G.cells m.1 m.2 = t ∧ m ∉ changed) := by
  obtain ⟨h1, h2, h3⟩ := visitFoldAux_spec G t v hne p neighborDeltas g [] changed
    (by simpa using hag) (by simpa using hnd)
  refine ⟨h1, h2, ?_⟩
  intro m
  rw [show (visitNeighbors t v p g).2
      = (visitFoldAux t v p neighborDeltas (g, [])).2 from rfl, h3 m]
  simp

theorem reach_closed_iff (G : GridState) (t : Nat) (s : Int × Int)
    (changed : List (Int × Int))
    (hs : s ∈ changed)
    (hprops : ∀ p ∈ changed, Relation.ReflTransGen (fillStep G t) s p)
    (hclosed : ∀ p ∈ changed, ∀ p', fillStep G t p p' → p' ∈ changed) :
    ∀ p, p ∈ changed ↔ Relation.ReflTransGen (fillStep G t) s p := by
  intro p
  constructor
  · exact hprops p
  · intro hreach
    induction hreach with
    | refl => exact hs
    | tail hab hbc ih => exact hclosed _ ih _ hbc

theorem fillLoop_spec (G : GridState) (s : Int × Int) (t v : Nat)
    (hne : t ≠ v) :
    ∀ (fuel : Nat) (g : GridState) (q changed : List (Int × Int)),
      Agrees G v g changed →
      changed.Nodup →
      (∀ p ∈ changed, inBounds G p ∧ G.cells p.1 p.2 = t ∧
        Relation.ReflTransGen (fillStep G t) s p) →
      (∃ done, changed = done ++ q ∧
        ∀ p ∈ done, ∀ p', fillStep G t p p' → p' ∈ changed) →
      s ∈ changed →
      (targetFin G t).card + q.length ≤ fuel + changed.length →
      Agrees G v (fillLoop t v fuel g q changed).1
          (fillLoop t v fuel g q changed).2
      ∧ (fillLoop t v fuel g q changed).2.Nodup
      ∧ ∀ p, (p ∈ (fillLoop t v fuel g q changed).2 ↔
          Relation.ReflTransGen (fillStep G t) s p) := by
  intro fuel
  induction fuel with
  | zero =>
      intro g q changed hag hnd hprops hdone hs hcount
      have hlen : changed.length ≤ (targetFin G t).card :=
        changed_length_le_card G t changed hnd
          (fun p hp => ⟨(hprops p hp).1, (hprops p hp).2.1⟩)
      have hq : q = [] := by
        cases q with
        | nil => rfl
        | cons a q' =>
            exfalso
            simp only [List.length_cons] at hcount
            omega
      subst hq
      obtain ⟨done, hdeq, hcl⟩ := hdone
      rw [List.append_nil] at hdeq
      subst hdeq
      exact ⟨hag, hnd,
        reach_closed_iff G t s _ hs (fun p hp => (hprops p hp).2.2) hcl⟩
  | succ fuel ih =>
      intro g q changed hag hnd hprops hdone hs hcount
      cases q with
      | nil =>
          obtain ⟨done, hdeq, hcl⟩ := hdone
          rw [List.append_nil] at hdeq
          subst hdeq
          exact ⟨hag, hnd,
            reach_closed_iff G t s _ hs (fun p hp => (hprops p hp).2.2) hcl⟩
      | cons p rest =>
          obtain ⟨done, hdeq, hcl⟩ := hdone
          have hpmem : p ∈ changed := by rw [hdeq]; simp
          obtain ⟨hag', hnd', hmem⟩ :=
            visitNeighbors_spec G t v hne p g changed hag hnd
          have hprops' : ∀ m ∈ changed ++ (visitNeighbors t v p g).2,
              inBounds G m ∧ G.cells m.1 m.2 = t ∧
                Relation.ReflTransGen (fillStep G t) s m := by
            intro m hm
            rcases List.mem_append.1 hm with hm | hm
            · exact hprops m hm
            · obtain ⟨hD, hinB, htarm, _⟩ := (hmem m).1 hm
              exact ⟨hinB, htarm,
                (hprops p hpmem).2.2.tail ⟨hD, hinB, htarm⟩⟩
          have hdone' : ∃ done', changed ++ (visitNeighbors t v p g).2
              = done' ++ (rest ++ (visitNeighbors t v p g).2) ∧
              ∀ a ∈ done', ∀ p', fillStep G t a p' →
                p' ∈ changed ++ (visitNeighbors t v p g).2 := by
            refine ⟨done ++ [p], ?_, ?_⟩
            · rw [hdeq]; simp
            · intro a ha p' hstep'
              rcases List.mem_append.1 ha with ha | ha
              · exact List.mem_append.2 (Or.inl (hcl a ha p' hstep'))
              · rw [List.mem_singleton] at ha
                subst ha
                by_cases hp' : p' ∈ changed
                · exact List.mem_append.2 (Or.inl hp')
                · exact List.mem_append.2 (Or.inr
                    ((hmem p').2 ⟨hstep'.1, hstep'.2.1, hstep'.2.2, hp'⟩))
          have hs' : s ∈ changed ++ (visitNeighbors t v p g).2 :=
            List.mem_append.2 (Or.inl hs)
          have hcount' : (targetFin G t).card
                + (rest ++ (visitNeighbors t v p g).2).length
              ≤ fuel + (changed ++ (visitNeighbors t v p g).2).length := by
            have hceq : changed.length = done.length + (rest.length + 1) := by
              rw [hdeq]; simp [List.length_append]
            simp only [List.length_append, List.length_cons] at hcount ⊢
            omega
          exact ih (visitNeighbors t v p g).1
            (rest ++ (visitNeighbors t v p g).2)
            (changed ++ (visitNeighbors t v p g).2)
            hag' hnd' hprops' hdone' hs' hcount'

theorem reach_cells_eq (G : GridState) (t : Nat) (s : Int × Int)
    (hst : G.cells s.1 s.2 = t) {p : Int × Int}
    (h : Relation.ReflTransGen (fillStep G t) s p) :
    G.cells p.1 p.2 = t := by
  induction h with
  | refl => exact hst
  | tail hab hbc ih => exact hbc.2.2

/-- C10: for an in-bounds click on a cell not already holding the paint
value, fillRegionLocal repaints exactly the 4-connected component of cells
holding the clicked cell original value that contains the click (255 cells
are not exempt), leaves every other cell unchanged, and returns exactly the
changed coordinates, each once; an out-of-bounds click or a click on a cell
already holding the value returns the empty list and changes nothing. -/
theorem fillRegionLocal_spec (g : GridState) (row col : Int) (value : Nat) :
    ((row < 0 ∨ col < 0 ∨ (g.height : Int) ≤ row ∨ (g.width : Int) ≤ col) →
        fillRegionLocal g row col value = (g, []))
    ∧ (g.cells row col = value → fillRegionLocal g row col value = (g, []))
    ∧ (inBounds g (row, col) → g.cells row col ≠ value →
        (fillRegionLocal g row col value).2.Nodup
        ∧ (∀ p : Int × Int,
            p ∈ (fillRegionLocal g row col value).2 ↔ fillReach g (row, col) p)
        ∧ (∀ p : Int × Int, fillReach g (row, col) p →
            (fillRegionLocal g row col value).1.cells p.1 p.2 = value)
        ∧ (∀ p : Int × Int, ¬ fillReach g (row, col) p →
            (fillRegionLocal g row col value).1.cells p.1 p.2 = g.cells p.1 p.2)
        ∧ (∀ p : Int × Int,
            ((fillRegionLocal g row col value).1.cells p.1 p.2 ≠ g.cells p.1 p.2
              ↔ p ∈ (fillRegionLocal g row col value).2))
        ∧ (fillRegionLocal g row col value).1.width = g.width
        ∧ (fillRegionLocal g row col value).1.height = g.height) := by
  refine ⟨?_, ?_, ?_⟩
  · intro h
    unfold fillRegionLocal
    rw [if_pos h]
  · intro h
    unfold fillRegionLocal
    by_cases hb : row < 0 ∨ col < 0 ∨ (g.height : Int) ≤ row
        ∨ (g.width : Int) ≤ col
    · rw [if_pos hb]
    · rw [if_neg hb]
      show (if g.cells row col = value then _ else _) = _
      rw [if_pos h]
  · intro hinb hnev
    have hbfalse : ¬(row < 0 ∨ col < 0 ∨ (g.height : Int) ≤ row
        ∨ (g.width : Int) ≤ col) := by
      obtain ⟨h1, h2, h3, h4⟩ := hinb
      push_neg
      refine ⟨by omega, by omega, by omega, by omega⟩
    have hfill : fillRegionLocal g row col value
        = fillLoop (g.cells row col) value (g.height * g.width + 1)
            (setCell g row col value) [(row, col)] [(row, col)] := by
      unfold fillRegionLocal
      rw [if_neg hbfalse]
      show (if g.cells row col = value then _ else _) = _
      rw [if_neg hnev]
    have hag0 : Agrees g value (setCell g row col value) [(row, col)] := by
      refine ⟨rfl, rfl, ?_⟩
      intro r c
      show (if r = row ∧ c = col then value else g.cells r c) = _
      have hiff : ((r, c) ∈ [(row, col)]) ↔ (r = row ∧ c = col) := by
        simp [Prod.ext_iff]
      exact (if_congr hiff rfl rfl).symm
    have hprops0 : ∀ p ∈ [(row, col)],
        inBounds g p ∧ g.cells p.1 p.2 = g.cells row col ∧
          Relation.ReflTransGen (fillStep g (g.cells row col)) (row, col) p := by
      intro p hp
      rw [List.mem_singleton] at hp
      subst hp
      exact ⟨hinb, rfl, Relation.ReflTransGen.refl⟩
    have hdone0 : ∃ done, ([(row, col)] : List (Int × Int))
        = done ++ [(row, col)] ∧
        ∀ p ∈ done, ∀ p', fillStep g (g.cells row col) p p'
          → p' ∈ [(row, col)] := ⟨[], rfl, by simp⟩
    have hcount0 : (targetFin g (g.cells row col)).card
        + ([(row, col)] : List (Int × Int)).length
        ≤ (g.height * g.width + 1) + ([(row, col)] : List (Int × Int)).length := by
      have := targetFin_card_le g (g.cells row col)
      simp only [List.length_singleton]
      omega
    obtain ⟨hagR, hndR, hmemR⟩ := fillLoop_spec g (row, col)
      (g.cells row col) value hnev (g.height * g.width + 1)
      (setCell g row col value) [(row, col)] [(row, col)]
      hag0 (List.nodup_singleton _) hprops0 hdone0 (by simp) hcount0
    rw [hfill]
    obtain ⟨hagW, hagH, hagC⟩ := hagR
    refine ⟨hndR, hmemR, ?_, ?_, ?_, hagW, hagH⟩
    · intro p hreach
      have hmem : p ∈ (fillLoop (g.cells row col) value
          (g.height * g.width + 1) (setCell g row col value)
          [(row, col)] [(row, col)]).2 := (hmemR p).2 hreach
      have := hagC p.1 p.2
      rw [if_pos hmem] at this
      exact this
    · intro p hreach
      have hmem : p ∉ (fillLoop (g.cells row col) value
          (g.height * g.width + 1) (setCell g row col value)
          [(row, col)] [(row, col)]).2 := fun hm => hreach ((hmemR p).1 hm)
      have := hagC p.1 p.2
      rw [if_neg hmem] at this
      exact this
    · intro p
      constructor
      · intro hdiff
        by_contra hnm
        have := hagC p.1 p.2
        rw [if_neg hnm] at this
        exact hdiff this
      · intro hmem
        have hreach := (hmemR p).1 hmem
        have horig : g.cells p.1 p.2 = g.cells row col :=
          reach_cells_eq g (g.cells row col) (row, col) rfl hreach
        have := hagC p.1 p.2
        rw [if_pos hmem] at this
        rw [this, horig]
        exact fun hx => hnev hx.symm

/-- A 2 by 2 grid whose cells all hold 255, used to instantiate the flood
fill theorem: the fill does not exempt non-farm cells. -/
def fillSample : GridState := ⟨2, 2, fun _ _ => 255⟩

/-- Concrete instantiation of `fillRegionLocal_spec`: flooding the all-255
sample grid with 7 repaints all four cells, in scan order. -/
theorem fillRegionLocal_spec_witness :
    inBounds fillSample (0, 0) ∧ fillSample.cells 0 0 ≠ 7
    ∧ (fillRegionLocal fillSample 0 0 7).2 = [(0, 0), (1, 0), (0, 1), (1, 1)]
    ∧ ((1, 1) ∈ (fillRegionLocal fillSample 0 0 7).2
        ↔ fillReach fillSample (0, 0) (1, 1)) :=
  ⟨by decide, by decide, by decide,
   ((fillRegionLocal_spec fillSample 0 0 7).2.2 (by decide) (by decide)).2.1
     (1, 1)⟩

/-- Concrete instantiation of `planEngine_empty_plants`. -/
theorem planEngine_empty_plants_witness :
    (planEngine (fun _ _ => 1) [(1, 2)] (fun _ _ => none) [1, 2] [] 2026).score = 0
    ∧ ((1, ([] : List TimelineEntry)) ∈
        (planEngine (fun _ _ => 1) [(1, 2)] (fun _ _ => none) [1, 2] [] 2026).timeline)
    ∧ ((1, ([] : List TimelineEntry)).2 = []) :=
  ⟨(planEngine_empty_plants (fun _ _ => 1) [(1, 2)] (fun _ _ => none) [1, 2] 2026).2.2.2.2.2.2,
   by decide,
   (planEngine_empty_plants (fun _ _ => 1) [(1, 2)] (fun _ _ => none) [1, 2] 2026).2.2.2.2.1
     (1, []) (by decide)⟩
